import Mathlib

/-!
Verification development for the MSFS blackbox flight-data recorder
(`blackbox.py`).  The file gives a shallow embedding of the `DataRecorder`
core — the per-tick telemetry collection step (`collect_latest_data`), the
session `reset`, the post-session cleaning pass (`clean_data`) and the JSON
export (`store_json`) — and proves the specified properties about it.

Channel readings are modelled as rationals; the reserved failure marker
`-999999` is `SENTINEL`.  A tick's inputs (the ground flag, the per-channel
adapter reads, the wall-clock elapsed time) are packaged in `TickInput`;
reads that raise inside the `try` of `collect_latest_data` are modelled as
`none` and turn into an appended `SENTINEL`, exactly as in the source.
Operations of the source that can raise an uncaught exception are modelled
as `Option`-valued functions returning `none` on the raising paths.
-/

namespace Blackbox

/-- The reserved sentinel failure value `-999999` used by the recorder. -/
def SENTINEL : ℚ := -999999

/-- A reading is valid when it differs from the sentinel
(the `!= -999999` tests of the source). -/
def isValid (q : ℚ) : Bool := decide (q ≠ SENTINEL)

/-! ## Data cleaning (`DataRecorder.clean_data`)

For one channel series `y` the source does:
`if y[-1] == -999999: y[-1] = y[y != -999999][-1]` and
`if y[0] == -999999: y[0] = y[y != -999999][0]` (both outside the `try`,
so an empty valid selection raises an uncaught `IndexError`), then
interpolates `interp1d(x[idx], y[idx])` over the valid index positions
inside a `try`.  When `interp1d` itself fails (fewer than two valid
points) the `except` block prints a diagnostic and then evaluates
`min(item[item != -999999])` on the plain Python list `item`, which itself
raises — so every failing channel ends in an uncaught exception, modelled
as `none`. -/

/-- The `y[-1]` fix of `clean_data`: replace a sentinel last element by the
last valid value; `none` models the uncaught `IndexError` on an empty
series or an empty valid selection. -/
def fixLast (y : List ℚ) : Option (List ℚ) :=
  match y.getLast? with
  | none => none
  | some a =>
    if a = SENTINEL then
      match (y.filter isValid).getLast? with
      | none => none
      | some w => some (y.set (y.length - 1) w)
    else some y

/-- The `y[0]` fix of `clean_data` (run after `fixLast`, on the updated
series): replace a sentinel first element by the first valid value. -/
def fixFirst (y : List ℚ) : Option (List ℚ) :=
  match y.head? with
  | none => none
  | some a =>
    if a = SENTINEL then
      match (y.filter isValid).head? with
      | none => none
      | some w => some (y.set 0 w)
    else some y

/-- Largest index `j ≤ i` whose entry of `y` is valid. -/
def prevValidIdx (y : List ℚ) : Nat → Option Nat
  | 0 => if isValid (y.getD 0 SENTINEL) then some 0 else none
  | i + 1 =>
    if isValid (y.getD (i + 1) SENTINEL) then some (i + 1) else prevValidIdx y i

/-- Search upwards from `i` (with explicit fuel) for a valid entry of `y`. -/
def nextValidIdxAux (y : List ℚ) : Nat → Nat → Option Nat
  | _, 0 => none
  | i, fuel + 1 =>
    if isValid (y.getD i SENTINEL) then some i else nextValidIdxAux y (i + 1) fuel

/-- Smallest index `k ≥ i` whose entry of `y` is valid. -/
def nextValidIdx (y : List ℚ) (i : Nat) : Option Nat :=
  nextValidIdxAux y i (y.length - i)

/-- Value of scipy's linear `interp1d` over the valid knots of `y`,
evaluated at position `i`: a valid position keeps its value, a sentinel
position is interpolated linearly between the surrounding valid
positions. -/
def interpAt (y : List ℚ) (i : Nat) : ℚ :=
  if isValid (y.getD i SENTINEL) then y.getD i SENTINEL
  else
    match prevValidIdx y i, nextValidIdx y i with
    | some j, some k =>
      y.getD j SENTINEL
        + (y.getD k SENTINEL - y.getD j SENTINEL)
          * ((i : ℚ) - (j : ℚ)) / ((k : ℚ) - (j : ℚ))
    | _, _ => SENTINEL

/-- One channel of `DataRecorder.clean_data`: the two boundary fixes, then
interpolation over the valid positions; `none` models the raising paths
(empty series, all-sentinel series, fewer than two valid points). -/
def cleanChannel (item : List ℚ) : Option (List ℚ) :=
  match fixLast item with
  | none => none
  | some y₁ =>
    match fixFirst y₁ with
    | none => none
    | some y =>
      if (y.filter isValid).length < 2 then none
      else some ((List.range y.length).map (interpAt y))

/-- `DataRecorder.clean_data` over the whole data dictionary: channels are
processed in order and the first raising channel aborts the pass
(modelled as `none` for the whole call). -/
def cleanData : List (String × List ℚ) → Option (List (String × List ℚ))
  | [] => some []
  | (k, ser) :: rest =>
    match cleanChannel ser with
    | none => none
    | some out =>
      match cleanData rest with
      | none => none
      | some rest' => some ((k, out) :: rest')

/-! ## Python values for landing snapshots and export (`store_json`)

`store_json` distinguishes values by whether they have a `.tolist()`
method: numpy arrays do, plain Python floats and lists do not. -/

/-- A Python value as it appears in `_landing_data` and in the dictionary
built by `store_json`: a scalar, a 1-d or 2-d numpy array, or a plain
(possibly nested) Python list. -/
inductive PyVal where
  | num : ℚ → PyVal
  | npArr : List ℚ → PyVal
  | npArr2 : List (List ℚ) → PyVal
  | pyList : List ℚ → PyVal
  | pyList2 : List (List ℚ) → PyVal
deriving DecidableEq

/-- Python's `item.tolist()`: succeeds exactly on numpy arrays; a scalar
or a plain list has no such attribute and the call raises (`none`). -/
def tolist : PyVal → Option PyVal
  | PyVal.npArr l => some (PyVal.pyList l)
  | PyVal.npArr2 m => some (PyVal.pyList2 m)
  | _ => none

/-- Python-dict assignment `d[k] = v` over an insertion-ordered
association list: update in place when the key exists, append
otherwise. -/
def dictSet (d : List (String × PyVal)) (k : String) (v : PyVal) :
    List (String × PyVal) :=
  if d.any (fun kv => kv.1 == k) then
    d.map (fun kv => if kv.1 == k then (k, v) else kv)
  else d ++ [(k, v)]

/-- Key `"ELAPSED_TIME"` of the exported document. -/
def elapsedKey : String := "ELAPSED_TIME"

/-- Tag prepended to landing-snapshot keys in the exported document. -/
def landingTag : String := "LANDING_"

/-- Key `"LANDING_TIME"` of the landing snapshot. -/
def landingTimeKey : String := "LANDING_TIME"

/-- `DataRecorder.store_json`: build the store dictionary from the channel
data, add the elapsed-time sequence, add each landing field whose
`.tolist()` conversion succeeds (a failing landing field is skipped with a
printed diagnostic), then convert every value in place where `.tolist()`
succeeds, keeping the unconverted value where it fails.  The result is the
dictionary passed to `json.dump`. -/
def store_json (dataDict : List (String × PyVal)) (timeElapsed : List ℚ)
    (landingData : List (String × PyVal)) : List (String × PyVal) :=
  let d₀ := dictSet dataDict elapsedKey (PyVal.pyList timeElapsed)
  let d₁ := landingData.foldl (fun d kv =>
    match tolist kv.2 with
    | some v => dictSet d (landingTag ++ kv.1) v
    | none => d) d₀
  d₁.map (fun kv => (kv.1, (tolist kv.2).getD kv.2))

/-! ## The recorder state and the per-tick step
(`DataRecorder.collect_latest_data`, `DataRecorder.reset`) -/

/-- The mutable state of a `DataRecorder` after `init_simconnect`.
`airborne` models the dynamically created attribute `self.airborne`
(`none` while it has never been assigned, which `collect_latest_data`
tests with `hasattr`); `_airborne` models the distinct field
`self._airborne` that `reset` assigns. -/
structure RecorderState where
  status : String
  airborne : Option Bool
  _airborne : Bool
  airborneList : List Bool
  dataDict : List (String × List ℚ)
  timeElapsed : List ℚ
  events : List String
  landingData : List (String × PyVal)
  takeoffData : List (String × List ℚ)
  landingTime : ℚ

/-- `DataRecorder.reset` (after init): clears the session fields and every
channel series.  Note that it assigns `_airborne`, not the `airborne`
attribute that `collect_latest_data` reads. -/
def RecorderState.reset (s : RecorderState) : RecorderState :=
  { s with
    _airborne := false
    status := "starting"
    landingTime := 0
    airborneList := [false]
    timeElapsed := []
    events := []
    landingData := []
    takeoffData := []
    dataDict := s.dataDict.map (fun kv => (kv.1, ([] : List ℚ))) }

/-- The external inputs consumed by one invocation of
`collect_latest_data`: the `SIM_ON_GROUND` reading, the per-channel
adapter reads (`none` when `round(aq.get(key), 4)` raises, in which case
the sentinel is appended), and the elapsed time `time.time() -
self._start_time` of this tick. -/
structure TickInput where
  onGround : ℚ
  reads : String → Option ℚ
  t : ℚ

/-- The value appended to a channel series this tick: the read result, or
the sentinel when the read raised. -/
def readValue (reads : String → Option ℚ) (k : String) : ℚ :=
  match reads k with
  | none => SENTINEL
  | some v => v

/-- The updated `self.airborne` attribute: on a sentinel ground reading
the previous value is kept (`False` if the attribute was never assigned),
otherwise `not on_the_ground` under Python truthiness. -/
def newAirborne (s : RecorderState) (tk : TickInput) : Bool :=
  if tk.onGround = SENTINEL then s.airborne.getD false
  else decide (tk.onGround = 0)

/-- Append to the airborne history, then drop the oldest entry when the
length exceeds 100 (`self._airborne_list.pop(0)`). -/
def pushAirborne (l : List Bool) (b : Bool) : List Bool :=
  let l' := l ++ [b]
  if l'.length > 100 then l'.drop 1 else l'

/-- The airborne history after this tick's push. -/
def newAirborneList (s : RecorderState) (tk : TickInput) : List Bool :=
  pushAirborne s.airborneList (newAirborne s tk)

/-- Every channel series with this tick's reading appended. -/
def newDataDict (s : RecorderState) (tk : TickInput) :
    List (String × List ℚ) :=
  s.dataDict.map (fun kv => (kv.1, kv.2 ++ [readValue tk.reads kv.1]))

/-- Python's `l[-3:]` / `l[-4:]`: the last `n` elements. -/
def lastN (n : Nat) (l : List α) : List α := l.drop (l.length - n)

/-- Python's `item[-3:-1]` used for the takeoff snapshot: the last three
elements with the final one removed. -/
def takeoffWindow (l : List ℚ) : List ℚ := (lastN 3 l).dropLast

/-- The takeoff-detection condition of `collect_latest_data`: currently
airborne, from `starting`/`taxiing out`, with more than two history
entries of which the last three are all true. -/
def takeoffFires (s : RecorderState) (tk : TickInput) : Bool :=
  newAirborne s tk
    && (decide (s.status = "starting") || decide (s.status = "taxiing out"))
    && decide ((newAirborneList s tk).length > 2)
    && (lastN 3 (newAirborneList s tk)).all id

/-- The landing-detection condition, evaluated after the takeoff branch:
the (possibly just updated) status is `flying`, none of the last three
history entries is true, and `"takeoff"` is not among this tick's
events. -/
def landingFires (s : RecorderState) (tk : TickInput) : Bool :=
  decide ((if takeoffFires s tk then "flying" else s.status) = "flying")
    && !((lastN 3 (newAirborneList s tk)).any id)
    && !(decide ("takeoff" ∈ (if takeoffFires s tk
          then ["takeoff"] else ([] : List String))))

/-- The landing snapshot stored for one channel series `item`:
`np.array(item[-4:])` indexed by the scalar boolean `item != -999999`.
Since `item` is a plain Python list, that comparison is `True`, and
numpy's scalar-boolean indexing wraps the window in a new axis instead of
filtering it, so the stored value is the unfiltered last-4 window inside a
one-element outer dimension (and the `len(item_) == 0` placeholder branch
is unreachable). -/
def landingSnapshotVal (ser : List ℚ) : PyVal :=
  PyVal.npArr2 [lastN 4 ser]

/-- `DataRecorder.collect_latest_data`: clear the per-tick events, ingest
the ground signal, push the airborne history, append one reading to every
channel series and the elapsed time, then run the takeoff and landing
detection branches in order. -/
def collect_latest_data (s : RecorderState) (tk : TickInput) :
    RecorderState :=
  let a := newAirborne s tk
  let alb := newAirborneList s tk
  let dd := newDataDict s tk
  let tf := takeoffFires s tk
  let lf := landingFires s tk
  { status := if lf then "rollout" else if tf then "flying" else s.status
    airborne := some a
    _airborne := s._airborne
    airborneList := alb
    dataDict := dd
    timeElapsed := s.timeElapsed ++ [tk.t]
    events := (if tf then ["takeoff"] else [])
      ++ (if lf then ["landing"] else [])
    landingData := if lf then
        (landingTimeKey, PyVal.num tk.t)
          :: dd.map (fun kv => (kv.1, landingSnapshotVal kv.2))
      else s.landingData
    takeoffData := if tf then dd.map (fun kv => (kv.1, takeoffWindow kv.2))
      else s.takeoffData
    landingTime := if lf then tk.t else s.landingTime }

/-- Run a session: fold `collect_latest_data` over a list of tick
inputs. -/
def runTicks (s : RecorderState) : List TickInput → RecorderState
  | [] => s
  | tk :: rest => runTicks (collect_latest_data s tk) rest

/-- The chronological list of events fired over a run (each tick's
`self._events`, concatenated). -/
def sessionEvents (s : RecorderState) : List TickInput → List String
  | [] => []
  | tk :: rest =>
    (collect_latest_data s tk).events
      ++ sessionEvents (collect_latest_data s tk) rest

/-- Checks a chronological event list: `"takeoff"` at most once,
`"landing"` at most once and only after a `"takeoff"`, given which of the
two was already seen. -/
def eventsOk : List String → Bool → Bool → Bool
  | [], _, _ => true
  | e :: rest, sawT, sawL =>
    if e = "takeoff" then !sawT && eventsOk rest true sawL
    else if e = "landing" then sawT && !sawL && eventsOk rest sawT true
    else eventsOk rest sawT sawL

/-- Bool-valued §3 invariant: every channel series has the same length as
the elapsed-time sequence. -/
def lengthsOk (s : RecorderState) : Bool :=
  s.dataDict.all (fun kv => kv.2.length == s.timeElapsed.length)

/-- A fresh recorder for the given channel keys, as produced by
`DataRecorder(simvars)` followed by `init_simconnect` (which calls
`reset`): the `airborne` attribute does not exist yet. -/
def mkRecorder (keys : List String) : RecorderState :=
  { status := "starting"
    airborne := none
    _airborne := false
    airborneList := [false]
    dataDict := keys.map (fun k => (k, ([] : List ℚ)))
    timeElapsed := []
    events := []
    landingData := []
    takeoffData := []
    landingTime := 0 }

/-- A tick whose channel reads all fail (used where only the phase logic
matters). -/
def gTick (g : ℚ) (t : ℚ) : TickInput :=
  { onGround := g, reads := fun _ => none, t := t }

/-- A tick where every channel read returns `v` (or raises, when
`v = none`). -/
def vTick (g : ℚ) (v : Option ℚ) (t : ℚ) : TickInput :=
  { onGround := g, reads := fun _ => v, t := t }

/-- Does a Python value contain the sentinel anywhere? -/
def hasSentinel : PyVal → Bool
  | PyVal.num q => q == SENTINEL
  | PyVal.npArr l => l.any (fun q => q == SENTINEL)
  | PyVal.pyList l => l.any (fun q => q == SENTINEL)
  | PyVal.npArr2 m => m.any (fun l => l.any (fun q => q == SENTINEL))
  | PyVal.pyList2 m => m.any (fun l => l.any (fun q => q == SENTINEL))

/-- Does the sentinel appear anywhere in an exported document? -/
def docHasSentinel (d : List (String × PyVal)) : Bool :=
  d.any (fun kv => hasSentinel kv.2)

/-- The end-of-session pipeline of `toggle_recording`: clean the channel
data (aborting, `none`, if `clean_data` raises), then export with
`store_json`; cleaned channels are numpy arrays. -/
def exportAfterClean (s : RecorderState) : Option (List (String × PyVal)) :=
  match cleanData s.dataDict with
  | none => none
  | some dd =>
    some (store_json (dd.map (fun kv => (kv.1, PyVal.npArr kv.2)))
      s.timeElapsed s.landingData)

/-- Channel key used by the concrete sessions below. -/
def keyA : String := "A"

/-- C5 scenario: three ticks on the ground (`SIM_ON_GROUND = 1`, airborne
observation `False`), then three ticks in the air (`SIM_ON_GROUND = 0`,
airborne observation `True`). -/
def ticksC5 : List TickInput :=
  [gTick 1 1, gTick 1 2, gTick 1 3, gTick 0 4, gTick 0 5, gTick 0 6]

/-- C2 scenario: takeoff on tick 4, landing on tick 7; the channel read
fails on tick 5, so the landing window `item[-4:]` is `[1, -999999, 3, 4]`. -/
def ticksC2 : List TickInput :=
  [vTick 1 (some 10) 1, vTick 0 (some 10) 2, vTick 0 (some 10) 3,
   vTick 0 (some 1) 4, vTick 1 none 5, vTick 1 (some 3) 6, vTick 1 (some 4) 7]

/-- The recorder state at the end of the C2 scenario. -/
def finalC2 : RecorderState := runTicks (mkRecorder [keyA]) ticksC2

/-- C8 scenario: takeoff on tick 3, landing on tick 6; the only failed
read is on the landing tick itself, so the landing window carries a
sentinel while the cleaned series does not. -/
def ticksC8 : List TickInput :=
  [vTick 0 (some 10) 1, vTick 0 (some 11) 2, vTick 0 (some 12) 3,
   vTick 1 (some 13) 4, vTick 1 (some 14) 5, vTick 1 none 6]

/-- The recorder state at the end of the C8 scenario. -/
def finalC8 : RecorderState := runTicks (mkRecorder [keyA]) ticksC8

/-- The document exported at the end of the C8 scenario. -/
def docC8 : List (String × PyVal) :=
  [(keyA, PyVal.pyList [10, 11, 12, 13, 14, 14]),
   (elapsedKey, PyVal.pyList [1, 2, 3, 4, 5, 6]),
   ("LANDING_A", PyVal.pyList2 [[12, 13, 14, SENTINEL]])]

/-- A recorder mid-way through a session with the `airborne` attribute
already assigned `True` (used for the frame-effect scenarios). -/
def recAirborneTrue : RecorderState :=
  { mkRecorder [] with airborne := some true, status := "rollout" }

/-- Invariant tying the recorder status to which events have fired so far
in the session: `starting` before takeoff, `flying` between takeoff and
landing, `rollout` after landing. -/
def statusInv (st : String) (sawT sawL : Bool) : Prop :=
  (st = "starting" ∧ sawT = false ∧ sawL = false) ∨
  (st = "flying" ∧ sawT = true ∧ sawL = false) ∨
  (st = "rollout" ∧ sawT = true ∧ sawL = true)

/-! ## Basic facts about the per-tick step -/

theorem collect_dataDict (s : RecorderState) (tk : TickInput) :
    (collect_latest_data s tk).dataDict = newDataDict s tk := rfl

theorem collect_timeElapsed (s : RecorderState) (tk : TickInput) :
    (collect_latest_data s tk).timeElapsed = s.timeElapsed ++ [tk.t] := rfl

theorem collect_airborne (s : RecorderState) (tk : TickInput) :
    (collect_latest_data s tk).airborne = some (newAirborne s tk) := rfl

theorem collect_airborneList (s : RecorderState) (tk : TickInput) :
    (collect_latest_data s tk).airborneList = newAirborneList s tk := rfl

theorem collect_events (s : RecorderState) (tk : TickInput) :
    (collect_latest_data s tk).events
      = (if takeoffFires s tk then ["takeoff"] else [])
        ++ (if landingFires s tk then ["landing"] else []) := rfl

theorem collect_status (s : RecorderState) (tk : TickInput) :
    (collect_latest_data s tk).status
      = if landingFires s tk then "rollout"
        else if takeoffFires s tk then "flying" else s.status := rfl

/-- C1.  The claim asserts that cleaning an all-sentinel channel leaves it
unchanged, surfaces a diagnostic, and never raises.  The code instead
raises an uncaught `IndexError` before reaching any diagnostic: the
boundary fix `y[-1] = y[y != -999999][-1]` indexes an empty selection and
sits outside the `try` block.  This theorem evaluates the embedded
cleaning pass at the failing input: `none` is the raising path. -/
theorem c1_all_sentinel_cleaning_raises :
    cleanChannel [SENTINEL, SENTINEL] = none
      ∧ cleanData [(keyA, [SENTINEL, SENTINEL])] = none := by
  constructor <;> rfl

/-- C2.  The claim asserts the landing snapshot is the last-4 window with
all sentinels removed (placeholder `[-999999]` when nothing survives).
The code filters with `item_[item != -999999]` where `item` is the plain
Python list, so the mask is the scalar `True`, numpy wraps the window in a
new axis, and no sentinel is removed (nor is the placeholder reachable).
At the end of the C2 scenario the stored snapshot is the unfiltered
window `[[1, -999999, 3, 4]]`, not `[1, 3, 4]`. -/
theorem c2_landing_snapshot_keeps_sentinels :
    finalC2.events = ["landing"]
      ∧ finalC2.landingData
        = [(landingTimeKey, PyVal.num 7),
           (keyA, PyVal.npArr2 [[1, SENTINEL, 3, 4]])] := by
  constructor <;> decide

/-- C5.  Starting from a fresh session with airborne observations
`F, F, F, T, T, T` (ground flag `1, 1, 1, 0, 0, 0`), the takeoff event
fires exactly on the sixth tick — the one that appends the third
consecutive `True` — and on no earlier tick. -/
theorem c5_takeoff_fires_on_third_true :
    ("takeoff" ∉ (runTicks (mkRecorder [keyA]) (ticksC5.take 0)).events)
      ∧ ("takeoff" ∉ (runTicks (mkRecorder [keyA]) (ticksC5.take 1)).events)
      ∧ ("takeoff" ∉ (runTicks (mkRecorder [keyA]) (ticksC5.take 2)).events)
      ∧ ("takeoff" ∉ (runTicks (mkRecorder [keyA]) (ticksC5.take 3)).events)
      ∧ ("takeoff" ∉ (runTicks (mkRecorder [keyA]) (ticksC5.take 4)).events)
      ∧ ("takeoff" ∉ (runTicks (mkRecorder [keyA]) (ticksC5.take 5)).events)
      ∧ ("takeoff" ∈ (runTicks (mkRecorder [keyA]) (ticksC5.take 6)).events) := by
  refine ⟨?_, ?_, ?_, ?_, ?_, ?_, ?_⟩ <;> decide

/-- C6.  The two cleaning examples of the specification: an interior
sentinel run is linearly interpolated against the index positions
(`[1, -999999, -999999, 4]` cleans to `[1, 2, 3, 4]`), and a sentinel
boundary holds the nearest valid value (`[-999999, 2, 3]` cleans to
`[2, 2, 3]`). -/
theorem c6_cleaning_examples :
    cleanChannel [1, SENTINEL, SENTINEL, 4] = some [1, 2, 3, 4]
      ∧ cleanChannel [SENTINEL, 2, 3] = some [2, 2, 3] := by
  constructor
  · norm_num [cleanChannel, fixLast, fixFirst, isValid, SENTINEL, List.getD]
    rw [show List.range 4 = [0, 1, 2, 3] from rfl]
    norm_num [interpAt, prevValidIdx, nextValidIdx, nextValidIdxAux, isValid,
      SENTINEL, List.getD]
  · decide

/-- C7.  On a tick whose ground-signal read returns the sentinel, the
airborne attribute keeps exactly its value from the previous tick, and
that retained value is still pushed onto the airborne signal history. -/
theorem c7_sentinel_ground_retains_airborne (s : RecorderState)
    (tk : TickInput) (b : Bool) (hg : tk.onGround = SENTINEL)
    (hb : s.airborne = some b) :
    (collect_latest_data s tk).airborne = some b
      ∧ (collect_latest_data s tk).airborneList
        = pushAirborne s.airborneList b := by
  have ha : newAirborne s tk = b := by
    simp [newAirborne, hg, hb]
  exact ⟨by rw [collect_airborne, ha], by
    rw [collect_airborneList, newAirborneList, ha]⟩

/-- Witness for C7 at a concrete state and tick. -/
theorem c7_witness :
    (collect_latest_data recAirborneTrue (gTick SENTINEL 1)).airborne
        = some true
      ∧ (collect_latest_data recAirborneTrue (gTick SENTINEL 1)).airborneList
        = pushAirborne recAirborneTrue.airborneList true :=
  c7_sentinel_ground_retains_airborne recAirborneTrue (gTick SENTINEL 1) true
    rfl rfl

/-- C10.  `reset` assigns the field `_airborne` but not the dynamically
created attribute `airborne` that `collect_latest_data` reads, so after a
reset the attribute still holds the previous session's value; if the first
ground reading of the new session is the sentinel, the phase detector uses
that leftover value, falling back to `False` only when the attribute has
never been assigned in the process lifetime. -/
theorem c10_reset_leaves_airborne_attribute (s : RecorderState)
    (tk : TickInput) (hg : tk.onGround = SENTINEL) :
    s.reset.airborne = s.airborne
      ∧ s.reset._airborne = false
      ∧ newAirborne s.reset tk = s.airborne.getD false
      ∧ (collect_latest_data s.reset tk).airborne
        = some (s.airborne.getD false) := by
  refine ⟨rfl, rfl, ?_, ?_⟩
  · simp [newAirborne, hg, RecorderState.reset]
  · rw [collect_airborne]
    simp [newAirborne, hg, RecorderState.reset]

/-- Witness for C10: after a session that left the airborne attribute
`True`, a reset followed by a sentinel ground reading keeps `True`. -/
theorem c10_witness :
    recAirborneTrue.reset.airborne = recAirborneTrue.airborne
      ∧ recAirborneTrue.reset._airborne = false
      ∧ newAirborne recAirborneTrue.reset (gTick SENTINEL 1)
        = recAirborneTrue.airborne.getD false
      ∧ (collect_latest_data recAirborneTrue.reset (gTick SENTINEL 1)).airborne
        = some (recAirborneTrue.airborne.getD false) :=
  c10_reset_leaves_airborne_attribute recAirborneTrue (gTick SENTINEL 1) rfl

/-- C8 counterexample.  In the C8 scenario the end-of-session pipeline
(clean, then export) succeeds and the exported document contains the
sentinel inside the landing-snapshot field `LANDING_A`, refuting the claim
that the sentinel never appears anywhere in the exported document. -/
theorem c8_counterexample :
    exportAfterClean finalC8 = some docC8 ∧ docHasSentinel docC8 = true := by
  constructor <;> decide

/-- C9 counterexample.  `ELAPSED_TIME` is always a plain Python list, so
its `.tolist()` conversion fails; the claim says a field whose conversion
fails is dropped from the exported document, but the code keeps it with
its unconverted value. -/
theorem c9_counterexample :
    store_json [(keyA, PyVal.npArr [1])] [0] []
        = [(keyA, PyVal.pyList [1]), (elapsedKey, PyVal.pyList [0])]
      ∧ tolist (PyVal.pyList [0]) = none := by
  constructor <;> decide

/-! ## C3: the length invariant -/

theorem lengthsOk_collect (s : RecorderState) (tk : TickInput)
    (h : lengthsOk s = true) : lengthsOk (collect_latest_data s tk) = true := by
  simp only [lengthsOk, List.all_eq_true, beq_iff_eq] at h ⊢
  intro kv hkv
  rw [collect_dataDict, newDataDict] at hkv
  rw [collect_timeElapsed]
  obtain ⟨kv₀, h₀, rfl⟩ := List.mem_map.mp hkv
  have := h kv₀ h₀
  simp [this]

theorem lengthsOk_runTicks (tks : List TickInput) :
    ∀ s : RecorderState, lengthsOk s = true →
      lengthsOk (runTicks s tks) = true := by
  induction tks with
  | nil => exact fun s h => h
  | cons tk rest ih =>
    exact fun s h => ih _ (lengthsOk_collect s tk h)

/-- C3.  In any session — any initial recorder, reset, then any sequence
of tick inputs, including ones whose adapter reads fail — after every
invocation of the collection step each channel series has the same length
as the elapsed-time sequence (the sentinel fills the slot of a failed read
rather than the slot being skipped). -/
theorem c3_lengths_invariant (s : RecorderState) (tks : List TickInput) :
    lengthsOk (runTicks s.reset tks) = true := by
  apply lengthsOk_runTicks
  simp [lengthsOk, RecorderState.reset, List.all_eq_true]

/-! ## C4: at most one takeoff, at most one landing, in order -/

theorem takeoffFires_status (s : RecorderState) (tk : TickInput)
    (h : takeoffFires s tk = true) :
    s.status = "starting" ∨ s.status = "taxiing out" := by
  simp only [takeoffFires, Bool.and_eq_true, Bool.or_eq_true,
    decide_eq_true_eq] at h
  exact h.1.1.2

theorem landingFires_status (s : RecorderState) (tk : TickInput)
    (h : landingFires s tk = true) :
    takeoffFires s tk = false ∧ s.status = "flying" := by
  cases htf : takeoffFires s tk with
  | false =>
    refine ⟨rfl, ?_⟩
    simp only [landingFires, htf, if_false, Bool.and_eq_true,
      decide_eq_true_eq] at h
    exact h.1.1
  | true =>
    exfalso
    simp [landingFires, htf] at h

theorem sessionEvents_ok (tks : List TickInput) :
    ∀ (s : RecorderState) (sawT sawL : Bool),
      statusInv s.status sawT sawL →
      eventsOk (sessionEvents s tks) sawT sawL = true := by
  induction tks with
  | nil => intro s sawT sawL _; rfl
  | cons tk rest ih =>
    intro s sawT sawL hinv
    show eventsOk ((collect_latest_data s tk).events
      ++ sessionEvents (collect_latest_data s tk) rest) sawT sawL = true
    cases hlf : landingFires s tk with
    | true =>
      obtain ⟨htf, hfly⟩ := landingFires_status s tk hlf
      obtain ⟨h1, h2, h3⟩ : s.status = "flying" ∧ sawT = true ∧ sawL = false := by
        rcases hinv with ⟨h1, h2, h3⟩ | ⟨h1, h2, h3⟩ | ⟨h1, h2, h3⟩
        · rw [h1] at hfly; exact absurd hfly (by decide)
        · exact ⟨h1, h2, h3⟩
        · rw [h1] at hfly; exact absurd hfly (by decide)
      subst h2; subst h3
      have hev : (collect_latest_data s tk).events = ["landing"] := by
        rw [collect_events, htf, hlf]; rfl
      have hst' : (collect_latest_data s tk).status = "rollout" := by
        rw [collect_status, hlf]; rfl
      rw [hev]
      show eventsOk ("landing" :: sessionEvents (collect_latest_data s tk) rest)
        true false = true
      rw [eventsOk, if_neg (by decide), if_pos rfl]
      simp only [Bool.true_and, Bool.not_false]
      apply ih
      rw [hst']
      right; right; exact ⟨rfl, rfl, rfl⟩
    | false =>
      cases htf : takeoffFires s tk with
      | true =>
        have hst := takeoffFires_status s tk htf
        obtain ⟨h1, h2, h3⟩ :
            s.status = "starting" ∧ sawT = false ∧ sawL = false := by
          rcases hinv with ⟨h1, h2, h3⟩ | ⟨h1, h2, h3⟩ | ⟨h1, h2, h3⟩
          · exact ⟨h1, h2, h3⟩
          · rcases hst with h | h <;> rw [h1] at h <;>
              exact absurd h (by decide)
          · rcases hst with h | h <;> rw [h1] at h <;>
              exact absurd h (by decide)
        subst h2; subst h3
        have hev : (collect_latest_data s tk).events = ["takeoff"] := by
          rw [collect_events, htf, hlf]; rfl
        have hst' : (collect_latest_data s tk).status = "flying" := by
          rw [collect_status, hlf, htf]; rfl
        rw [hev]
        show eventsOk
          ("takeoff" :: sessionEvents (collect_latest_data s tk) rest)
          false false = true
        rw [eventsOk, if_pos rfl]
        simp only [Bool.true_and, Bool.not_false]
        apply ih
        rw [hst']
        right; left; exact ⟨rfl, rfl, rfl⟩
      | false =>
        have hev : (collect_latest_data s tk).events = [] := by
          rw [collect_events, htf, hlf]; rfl
        have hst' : (collect_latest_data s tk).status = s.status := by
          rw [collect_status, hlf, htf]; rfl
        rw [hev, List.nil_append]
        apply ih
        rw [hst']
        exact hinv

/-- C4.  Over any session (a reset followed by any tick sequence), the
chronological event list satisfies: takeoff fires at most once, landing
fires at most once, and no landing fires before a takeoff has fired. -/
theorem c4_session_events_ordered (s : RecorderState)
    (tks : List TickInput) :
    eventsOk (sessionEvents s.reset tks) false false = true := by
  apply sessionEvents_ok
  left; exact ⟨rfl, rfl, rfl⟩

/-! ## C9: partial-failure semantics of the export -/

theorem dictSet_mem_of_ne {d : List (String × PyVal)} {k : String}
    {v : PyVal} (k' : String) (v' : PyVal) (h : (k, v) ∈ d) (hne : k ≠ k') :
    (k, v) ∈ dictSet d k' v' := by
  unfold dictSet
  split
  · refine List.mem_map.mpr ⟨(k, v), h, ?_⟩
    simp [hne]
  · exact List.mem_append_left _ h

theorem dictSet_key_mem (d : List (String × PyVal)) (k : String)
    (v : PyVal) : k ∈ (dictSet d k v).map Prod.fst := by
  unfold dictSet
  split
  · rename_i hany
    obtain ⟨kv, hkv, hk⟩ := List.any_eq_true.mp hany
    refine List.mem_map.mpr ⟨(k, v), List.mem_map.mpr ⟨kv, hkv, ?_⟩, rfl⟩
    simp [beq_iff_eq.mp hk]
  · simp

theorem dictSet_key_mem_mono {d : List (String × PyVal)} {x : String}
    (k : String) (v : PyVal) (h : x ∈ d.map Prod.fst) :
    x ∈ (dictSet d k v).map Prod.fst := by
  unfold dictSet
  split
  · obtain ⟨kv, hkv, hk⟩ := List.mem_map.mp h
    by_cases hx : kv.1 == k
    · subst hk
      refine List.mem_map.mpr ⟨(k, v), List.mem_map.mpr ⟨kv, hkv, by simp [hx]⟩, ?_⟩
      simpa using (beq_iff_eq.mp hx).symm
    · exact List.mem_map.mpr ⟨kv, List.mem_map.mpr ⟨kv, hkv, by simp [hx]⟩, hk⟩
  · exact List.mem_map.mpr (by
      obtain ⟨kv, hkv, hk⟩ := List.mem_map.mp h
      exact ⟨kv, List.mem_append_left _ hkv, hk⟩)

theorem dictSet_key_not_mem {d : List (String × PyVal)} {x : String}
    (k : String) (v : PyVal) (h : x ∉ d.map Prod.fst) (hne : k ≠ x) :
    x ∉ (dictSet d k v).map Prod.fst := by
  unfold dictSet
  split
  · intro hmem
    obtain ⟨kv, hkv, hk⟩ := List.mem_map.mp hmem
    obtain ⟨kv₀, hkv₀, hkv₀eq⟩ := List.mem_map.mp hkv
    by_cases hx : kv₀.1 == k
    · apply hne
      rw [← hkv₀eq, if_pos hx] at hk
      exact hk
    · apply h
      rw [← hkv₀eq, if_neg hx] at hk
      exact List.mem_map.mpr ⟨kv₀, hkv₀, hk⟩
  · intro hmem
    rcases List.mem_map.mp hmem with ⟨kv, hkv, hk⟩
    rcases List.mem_append.mp hkv with h1 | h1
    · exact h (List.mem_map.mpr ⟨kv, h1, hk⟩)
    · apply hne
      rw [List.mem_singleton] at h1
      rw [h1] at hk
      exact hk

/-- The landing loop of `store_json`. -/
def landingFold (d : List (String × PyVal)) (ld : List (String × PyVal)) :
    List (String × PyVal) :=
  ld.foldl (fun d kv =>
    match tolist kv.2 with
    | some v => dictSet d (landingTag ++ kv.1) v
    | none => d) d

theorem landingFold_mem (ld : List (String × PyVal)) :
    ∀ (d : List (String × PyVal)) (k : String) (v : PyVal),
      (k, v) ∈ d → (∀ p ∈ ld, landingTag ++ p.1 ≠ k) →
      (k, v) ∈ landingFold d ld := by
  induction ld with
  | nil => exact fun d k v h _ => h
  | cons p rest ih =>
    intro d k v h hld
    show (k, v) ∈ landingFold (match tolist p.2 with
      | some w => dictSet d (landingTag ++ p.1) w
      | none => d) rest
    have hstep : (k, v) ∈ (match tolist p.2 with
        | some w => dictSet d (landingTag ++ p.1) w
        | none => d) := by
      cases tolist p.2 with
      | none => exact h
      | some w =>
        exact dictSet_mem_of_ne _ w h
          (fun he => hld p (List.mem_cons_self p rest) (he ▸ rfl))
    exact ih _ k v hstep (fun q hq => hld q (List.mem_cons_of_mem p hq))

theorem landingFold_key_mono (ld : List (String × PyVal)) :
    ∀ (d : List (String × PyVal)) (x : String),
      x ∈ d.map Prod.fst → x ∈ (landingFold d ld).map Prod.fst := by
  induction ld with
  | nil => exact fun d x h => h
  | cons p rest ih =>
    intro d x h
    show x ∈ (landingFold (match tolist p.2 with
      | some w => dictSet d (landingTag ++ p.1) w
      | none => d) rest).map Prod.fst
    apply ih
    cases tolist p.2 with
    | none => exact h
    | some w => exact dictSet_key_mem_mono _ w h

theorem landingFold_key_not_mem (ld : List (String × PyVal)) :
    ∀ (d : List (String × PyVal)) (x : String),
      x ∉ d.map Prod.fst →
      (∀ p ∈ ld, tolist p.2 ≠ none → landingTag ++ p.1 ≠ x) →
      x ∉ (landingFold d ld).map Prod.fst := by
  induction ld with
  | nil => exact fun d x h _ => h
  | cons p rest ih =>
    intro d x h hld
    show x ∉ (landingFold (match tolist p.2 with
      | some w => dictSet d (landingTag ++ p.1) w
      | none => d) rest).map Prod.fst
    apply ih
    · cases htl : tolist p.2 with
      | none => exact h
      | some w =>
        exact dictSet_key_not_mem _ w h
          (hld p (List.mem_cons_self p rest) (by simp [htl]))
    · exact fun q hq => hld q (List.mem_cons_of_mem p hq)

theorem store_json_eq (dd : List (String × PyVal)) (te : List ℚ)
    (ld : List (String × PyVal)) :
    store_json dd te ld
      = (landingFold (dictSet dd elapsedKey (PyVal.pyList te)) ld).map
          (fun kv => (kv.1, (tolist kv.2).getD kv.2)) := rfl

theorem store_json_keys (dd : List (String × PyVal)) (te : List ℚ)
    (ld : List (String × PyVal)) :
    (store_json dd te ld).map Prod.fst
      = (landingFold (dictSet dd elapsedKey (PyVal.pyList te)) ld).map
          Prod.fst := by
  rw [store_json_eq, List.map_map]
  rfl

/-- C9, amended.  Per-field conversion failures never abort the export:
a regular field whose `.tolist()` fails (here `(k, v)` of the channel
dictionary) is kept in the exported document with its unconverted value
rather than dropped, the `ELAPSED_TIME` key is always present, and a
landing-snapshot field whose conversion fails is the one kind of field
that is dropped. -/
theorem c9_export_partial_failure (dd : List (String × PyVal)) (te : List ℚ)
    (ld : List (String × PyVal)) (k : String) (v : PyVal)
    (hk : (k, v) ∈ dd) (hconv : tolist v = none) (hne : k ≠ elapsedKey)
    (hld : ∀ p ∈ ld, landingTag ++ p.1 ≠ k) :
    (k, v) ∈ store_json dd te ld
      ∧ elapsedKey ∈ (store_json dd te ld).map Prod.fst
      ∧ (∀ p ∈ ld, tolist p.2 = none →
          landingTag ++ p.1 ∉
            (dictSet dd elapsedKey (PyVal.pyList te)).map Prod.fst →
          (∀ q ∈ ld, tolist q.2 ≠ none → landingTag ++ q.1 ≠ landingTag ++ p.1) →
          landingTag ++ p.1 ∉ (store_json dd te ld).map Prod.fst) := by
  refine ⟨?_, ?_, ?_⟩
  · rw [store_json_eq]
    have h₁ : (k, v) ∈ dictSet dd elapsedKey (PyVal.pyList te) :=
      dictSet_mem_of_ne _ _ hk hne
    have h₂ := landingFold_mem ld _ k v h₁ hld
    refine List.mem_map.mpr ⟨(k, v), h₂, ?_⟩
    simp [hconv]
  · rw [store_json_keys]
    exact landingFold_key_mono ld _ elapsedKey
      (dictSet_key_mem dd elapsedKey (PyVal.pyList te))
  · intro p hp hpconv hpkey hq
    rw [store_json_keys]
    exact landingFold_key_not_mem ld _ _ hpkey hq

/-- Witness for C9 at a concrete export: channel `B` is a plain list, its
conversion fails, and it is kept; the landing field `C` fails conversion
and is dropped. -/
theorem c9_witness :
    ((keyA, PyVal.pyList [2]) ∈
        store_json [(keyA, PyVal.pyList [2])] [0]
          [(keyA, PyVal.num 3)]
      ∧ elapsedKey ∈ (store_json [(keyA, PyVal.pyList [2])] [0]
          [(keyA, PyVal.num 3)]).map Prod.fst
      ∧ (∀ p ∈ [(keyA, PyVal.num 3)], tolist p.2 = none →
          landingTag ++ p.1 ∉
            (dictSet [(keyA, PyVal.pyList [2])] elapsedKey
              (PyVal.pyList [0])).map Prod.fst →
          (∀ q ∈ [(keyA, PyVal.num 3)], tolist q.2 ≠ none →
            landingTag ++ q.1 ≠ landingTag ++ p.1) →
          landingTag ++ p.1 ∉ (store_json [(keyA, PyVal.pyList [2])] [0]
            [(keyA, PyVal.num 3)]).map Prod.fst)) :=
  c9_export_partial_failure [(keyA, PyVal.pyList [2])] [0]
    [(keyA, PyVal.num 3)] keyA (PyVal.pyList [2])
    (by decide) (by decide) (by decide) (by decide)

/-! ## C8: the cleaning postcondition -/

theorem isValid_iff {q : ℚ} : isValid q = true ↔ q ≠ SENTINEL := by
  simp [isValid]

theorem valid_index_lt {y : List ℚ} {i : Nat}
    (h : isValid (y.getD i SENTINEL) = true) : i < y.length := by
  by_contra hle
  rw [List.getD_eq_default _ _ (Nat.le_of_not_lt hle)] at h
  simp [isValid] at h

theorem valid_getD_mem {y : List ℚ} {i : Nat}
    (h : isValid (y.getD i SENTINEL) = true) : y.getD i SENTINEL ∈ y := by
  have hi := valid_index_lt h
  rw [List.getD_eq_getElem?_getD, List.getElem?_eq_getElem hi]
  simp

theorem prevValidIdx_spec {y : List ℚ} :
    ∀ {i j : Nat}, prevValidIdx y i = some j →
      j ≤ i ∧ isValid (y.getD j SENTINEL) = true
  | 0, j, h => by
    rw [prevValidIdx] at h
    split at h
    · rename_i hv
      cases h
      exact ⟨Nat.le_refl 0, hv⟩
    · cases h
  | i + 1, j, h => by
    rw [prevValidIdx] at h
    split at h
    · rename_i hv
      cases h
      exact ⟨Nat.le_refl _, hv⟩
    · have hrec := prevValidIdx_spec h
      exact ⟨Nat.le_succ_of_le hrec.1, hrec.2⟩

theorem prevValidIdx_isSome {y : List ℚ}
    (h0 : isValid (y.getD 0 SENTINEL) = true) :
    ∀ i : Nat, ∃ j, prevValidIdx y i = some j
  | 0 => ⟨0, by rw [prevValidIdx, if_pos h0]⟩
  | i + 1 => by
    rw [prevValidIdx]
    split
    · exact ⟨i + 1, rfl⟩
    · exact prevValidIdx_isSome h0 i

theorem nextValidIdxAux_spec {y : List ℚ} :
    ∀ {fuel i k : Nat}, nextValidIdxAux y i fuel = some k →
      i ≤ k ∧ isValid (y.getD k SENTINEL) = true
  | 0, _, _, h => by cases h
  | fuel + 1, i, k, h => by
    rw [nextValidIdxAux] at h
    split at h
    · rename_i hv
      cases h
      exact ⟨Nat.le_refl _, hv⟩
    · have hrec := nextValidIdxAux_spec h
      exact ⟨Nat.le_of_succ_le hrec.1, hrec.2⟩

theorem nextValidIdxAux_isSome {y : List ℚ} :
    ∀ (fuel i m : Nat), i ≤ m → m < i + fuel →
      isValid (y.getD m SENTINEL) = true →
      ∃ k, nextValidIdxAux y i fuel = some k
  | 0, _, m, him, hlt, _ => absurd hlt (by omega)
  | fuel + 1, i, m, him, hlt, hv => by
    rw [nextValidIdxAux]
    split
    · exact ⟨i, rfl⟩
    · rename_i hvi
      have hne : i ≠ m := fun he => hvi (he ▸ hv)
      exact nextValidIdxAux_isSome fuel (i + 1) m (by omega) (by omega) hv

theorem nextValidIdx_isSome {y : List ℚ} {i : Nat} (hi : i < y.length)
    (hlast : isValid (y.getD (y.length - 1) SENTINEL) = true) :
    ∃ k, nextValidIdx y i = some k :=
  nextValidIdxAux_isSome (y.length - i) i (y.length - 1) (by omega)
    (by omega) hlast

theorem interpAt_gt {y : List ℚ}
    (h0 : isValid (y.getD 0 SENTINEL) = true)
    (hlast : isValid (y.getD (y.length - 1) SENTINEL) = true)
    (hgt : ∀ q ∈ y, q ≠ SENTINEL → SENTINEL < q)
    {i : Nat} (hi : i < y.length) : SENTINEL < interpAt y i := by
  have hval : ∀ {n : Nat}, isValid (y.getD n SENTINEL) = true →
      SENTINEL < y.getD n SENTINEL :=
    fun {n} h => hgt _ (valid_getD_mem h) (isValid_iff.mp h)
  rw [interpAt]
  by_cases hv : isValid (y.getD i SENTINEL) = true
  · rw [if_pos hv]
    exact hval hv
  · rw [if_neg hv]
    obtain ⟨j, hj⟩ := prevValidIdx_isSome h0 i
    obtain ⟨k, hk⟩ := nextValidIdx_isSome hi hlast
    rw [hj, hk]
    obtain ⟨hji, hjv⟩ := prevValidIdx_spec hj
    obtain ⟨hik, hkv⟩ := nextValidIdxAux_spec hk
    have hjlt : j < i := by
      rcases Nat.lt_or_ge j i with h | h
      · exact h
      · exact absurd hjv (by rw [Nat.le_antisymm hji h]; exact fun hc => hv hc)
    have hklt : i < k := by
      rcases Nat.lt_or_ge i k with h | h
      · exact h
      · exact absurd hkv (by rw [← Nat.le_antisymm hik h]; exact fun hc => hv hc)
    have hA := hval hjv
    have hB := hval hkv
    have hden : (0 : ℚ) < (k : ℚ) - (j : ℚ) := by
      rw [sub_pos]
      exact_mod_cast Nat.lt_trans hjlt hklt
    have ht0 : (0 : ℚ) < (i : ℚ) - (j : ℚ) := by
      rw [sub_pos]
      exact_mod_cast hjlt
    have ht1 : ((i : ℚ) - (j : ℚ)) / ((k : ℚ) - (j : ℚ)) < 1 := by
      rw [div_lt_one hden]
      have : (i : ℚ) < (k : ℚ) := by exact_mod_cast hklt
      linarith
    have htpos : (0 : ℚ) < ((i : ℚ) - (j : ℚ)) / ((k : ℚ) - (j : ℚ)) :=
      div_pos ht0 hden
    show SENTINEL < y.getD j SENTINEL
      + (y.getD k SENTINEL - y.getD j SENTINEL)
        * ((i : ℚ) - (j : ℚ)) / ((k : ℚ) - (j : ℚ))
    rw [mul_div_assoc]
    nlinarith [mul_pos (sub_pos.mpr hA) (sub_pos.mpr ht1),
      mul_pos (sub_pos.mpr hB) htpos]

theorem set_last_concat (t : List ℚ) (b w : ℚ) :
    (t ++ [b]).set t.length w = t ++ [w] := by
  induction t with
  | nil => rfl
  | cons a t ih => simp [List.set_cons_succ, ih]

theorem fixLast_spec {item : List ℚ} (h2 : 2 ≤ item.length)
    (hex : ∃ q ∈ item, isValid q = true) :
    ∃ y₁, fixLast item = some y₁ ∧ y₁.length = item.length ∧
      (∃ b, y₁.getLast? = some b ∧ isValid b = true) ∧
      y₁.head? = item.head? ∧ (∀ q ∈ y₁, q ∈ item) := by
  rcases List.eq_nil_or_concat item with hnil | ⟨L, b, hLb⟩
  · rw [hnil] at h2
    simp at h2
  · rw [List.concat_eq_append] at hLb
    subst hLb
    by_cases hb : b = SENTINEL
    · obtain ⟨q, hq, hqv⟩ := hex
      have hqf : q ∈ (L ++ [b]).filter isValid := List.mem_filter.mpr ⟨hq, hqv⟩
      rcases List.eq_nil_or_concat ((L ++ [b]).filter isValid)
        with hf | ⟨F, w, hFw⟩
      · rw [hf] at hqf
        cases hqf
      · rw [List.concat_eq_append] at hFw
        have hwf : w ∈ (L ++ [b]).filter isValid := by
          rw [hFw]
          exact List.mem_append_right _ (List.mem_singleton.mpr rfl)
        obtain ⟨hwmem, hwv⟩ := List.mem_filter.mp hwf
        have hcomp : fixLast (L ++ [b]) = some (L ++ [w]) := by
          simp only [fixLast, List.getLast?_concat, if_pos hb, hFw]
          rw [show (L ++ [b]).length - 1 = L.length by simp, set_last_concat]
        refine ⟨L ++ [w], hcomp, by simp, ⟨w, List.getLast?_concat L, hwv⟩,
          ?_, ?_⟩
        · cases L with
          | nil => simp at h2
          | cons a L' => simp
        · intro q' hq'
          rcases List.mem_append.mp hq' with h | h
          · exact List.mem_append_left _ h
          · rw [List.mem_singleton] at h
            subst h
            exact hwmem
    · have hcomp : fixLast (L ++ [b]) = some (L ++ [b]) := by
        simp only [fixLast, List.getLast?_concat]
        rw [if_neg hb]
      exact ⟨L ++ [b], hcomp, rfl,
        ⟨b, List.getLast?_concat L, isValid_iff.mpr hb⟩, rfl, fun q h => h⟩

theorem fixFirst_spec {y₁ : List ℚ} (h2 : 2 ≤ y₁.length)
    (hlast : ∃ b, y₁.getLast? = some b ∧ isValid b = true) :
    ∃ y, fixFirst y₁ = some y ∧ y.length = y₁.length ∧
      (∃ a, y.head? = some a ∧ isValid a = true) ∧
      y.getLast? = y₁.getLast? ∧ (∀ q ∈ y, q ∈ y₁) := by
  cases y₁ with
  | nil => simp at h2
  | cons a t =>
    by_cases ha : a = SENTINEL
    · obtain ⟨b, hb, hbv⟩ := hlast
      have hbf : b ∈ (a :: t).filter isValid := by
        rcases List.eq_nil_or_concat t with rfl | ⟨T, c, hTc⟩
        · simp at h2
        · rw [List.concat_eq_append] at hTc
          subst hTc
          rw [show a :: (T ++ [c]) = (a :: T) ++ [c] by simp,
            List.getLast?_concat] at hb
          cases hb
          apply List.mem_filter.mpr
          refine ⟨?_, hbv⟩
          rw [show a :: (T ++ [b]) = (a :: T) ++ [b] by simp]
          exact List.mem_append_right _ (List.mem_singleton.mpr rfl)
      rcases hfc : (a :: t).filter isValid with _ | ⟨w, F⟩
      · rw [hfc] at hbf
        cases hbf
      · have hwf : w ∈ (a :: t).filter isValid := by
          rw [hfc]
          exact List.mem_cons_self w F
        obtain ⟨hwmem, hwv⟩ := List.mem_filter.mp hwf
        have hcomp : fixFirst (a :: t) = some (w :: t) := by
          simp only [fixFirst, List.head?_cons, if_pos ha, hfc,
            List.head?_cons, List.set_cons_zero]
        refine ⟨w :: t, hcomp, by simp, ⟨w, List.head?_cons, hwv⟩, ?_, ?_⟩
        · cases t with
          | nil => simp at h2
          | cons c t' => rw [List.getLast?_cons_cons, List.getLast?_cons_cons]
        · intro q hq
          rcases List.mem_cons.mp hq with rfl | h
          · exact hwmem
          · exact List.mem_cons_of_mem a h
    · have hcomp : fixFirst (a :: t) = some (a :: t) := by
        simp only [fixFirst, List.head?_cons]
        rw [if_neg ha]
      exact ⟨a :: t, hcomp, rfl, ⟨a, List.head?_cons, isValid_iff.mpr ha⟩,
        rfl, fun q h => h⟩

theorem two_le_filter_length {y : List ℚ} (h2 : 2 ≤ y.length)
    (hhead : ∃ a, y.head? = some a ∧ isValid a = true)
    (hlast : ∃ b, y.getLast? = some b ∧ isValid b = true) :
    2 ≤ (y.filter isValid).length := by
  cases y with
  | nil => simp at h2
  | cons a t =>
    rcases List.eq_nil_or_concat t with rfl | ⟨L, b, hLb⟩
    · simp at h2
    · rw [List.concat_eq_append] at hLb
      subst hLb
      obtain ⟨a', ha', hav⟩ := hhead
      rw [List.head?_cons] at ha'
      cases ha'
      obtain ⟨b', hb', hbv⟩ := hlast
      rw [show a :: (L ++ [b]) = (a :: L) ++ [b] by simp,
        List.getLast?_concat] at hb'
      cases hb'
      rw [show a :: (L ++ [b]) = (a :: L) ++ [b] by simp,
        List.filter_append]
      have hfb : [b].filter isValid = [b] := by
        rw [List.filter_cons, if_pos hbv]
        rfl
      rw [hfb, List.length_append]
      have hfa : 1 ≤ ((a :: L).filter isValid).length := by
        have : a ∈ (a :: L).filter isValid :=
          List.mem_filter.mpr ⟨List.mem_cons_self a L, hav⟩
        exact List.length_pos.mpr (List.ne_nil_of_mem this)
      simp only [List.length_cons, List.length_nil]
      omega

theorem getD_zero_of_head? {y : List ℚ} {a : ℚ} (h : y.head? = some a) :
    y.getD 0 SENTINEL = a := by
  cases y with
  | nil => cases h
  | cons x t =>
    rw [List.head?_cons] at h
    cases h
    rfl

theorem getD_last_of_getLast? {y : List ℚ} {b : ℚ} (h : y.getLast? = some b) :
    y.getD (y.length - 1) SENTINEL = b := by
  rcases List.eq_nil_or_concat y with rfl | ⟨L, b', hLb⟩
  · cases h
  · rw [List.concat_eq_append] at hLb
    subst hLb
    rw [List.getLast?_concat] at h
    cases h
    rw [show (L ++ [b]).length - 1 = L.length by simp,
      List.getD_append_right L [b] _ L.length (Nat.le_refl _)]
    simp

/-- C8, amended.  The sentinel never survives cleaning on any channel the
cleaning pass actually completes: a series of length at least two with at
least one valid sample, whose valid samples all lie above the sentinel
(readings are physical values, never at or below `-999999`), cleans to a
same-length series containing no sentinel.  (The original claim is wider —
no sentinel anywhere in the exported document — and is refuted by
`c8_counterexample`: landing-snapshot fields can carry the sentinel into
the export.) -/
theorem c8_clean_no_sentinel (item : List ℚ) (h2 : 2 ≤ item.length)
    (hex : ∃ q ∈ item, q ≠ SENTINEL)
    (hgt : ∀ q ∈ item, q ≠ SENTINEL → SENTINEL < q) :
    ∃ out, cleanChannel item = some out ∧ out.length = item.length ∧
      ∀ q ∈ out, q ≠ SENTINEL := by
  have hex' : ∃ q ∈ item, isValid q = true := by
    obtain ⟨q, hq, hv⟩ := hex
    exact ⟨q, hq, isValid_iff.mpr hv⟩
  obtain ⟨y₁, hfl, hlen₁, hlast₁, hhead₁, hsub₁⟩ := fixLast_spec h2 hex'
  have h2₁ : 2 ≤ y₁.length := hlen₁ ▸ h2
  obtain ⟨y, hff, hleny, hheady, hlasty, hsuby⟩ := fixFirst_spec h2₁ hlast₁
  have h2y : 2 ≤ y.length := hleny ▸ h2₁
  have hlasty' : ∃ b, y.getLast? = some b ∧ isValid b = true := by
    obtain ⟨b, hb, hbv⟩ := hlast₁
    exact ⟨b, hlasty ▸ hb, hbv⟩
  have hfilter := two_le_filter_length h2y hheady hlasty'
  have hgty : ∀ q ∈ y, q ≠ SENTINEL → SENTINEL < q :=
    fun q hq => hgt q (hsub₁ q (hsuby q hq))
  obtain ⟨a, ha, hav⟩ := hheady
  obtain ⟨b, hb, hbv⟩ := hlasty'
  have h0 : isValid (y.getD 0 SENTINEL) = true := by
    rw [getD_zero_of_head? ha]
    exact hav
  have hl : isValid (y.getD (y.length - 1) SENTINEL) = true := by
    rw [getD_last_of_getLast? hb]
    exact hbv
  refine ⟨(List.range y.length).map (interpAt y), ?_, ?_, ?_⟩
  · simp only [cleanChannel, hfl, hff]
    rw [if_neg (Nat.not_lt.mpr hfilter)]
  · rw [List.length_map, List.length_range, hleny, hlen₁]
  · intro q hq
    obtain ⟨i, hi, rfl⟩ := List.mem_map.mp hq
    rw [List.mem_range] at hi
    exact (interpAt_gt h0 hl hgty hi).ne'

/-- Witness for C8 at a concrete series with an interior sentinel. -/
theorem c8_witness :
    2 ≤ ([1, SENTINEL, 4] : List ℚ).length
      ∧ (∃ out, cleanChannel [1, SENTINEL, 4] = some out
          ∧ out.length = ([1, SENTINEL, 4] : List ℚ).length
          ∧ ∀ q ∈ out, q ≠ SENTINEL) :=
  ⟨by decide, c8_clean_no_sentinel [1, SENTINEL, 4] (by decide) (by decide)
    (by decide)⟩

end Blackbox
